import Mathlib

/-!
Verification of the deterministic replay/simulation engine of
`mockexchange-gateway` (`mockexchange_gateway/backends/replay.py`,
class `ReplayBackend`).

The Python engine is shallowly embedded here:

* Python `float` prices/amounts are modelled as `ℚ` (the claims under
  scrutiny are control-flow and exact-arithmetic properties, not
  rounding properties);
* Python `dict`s (`_tickers_by_symbol`, `_cursor_index`, `_balances`,
  `_orders`) are modelled as association lists with Python-dict update
  semantics: assignment replaces the value of an existing key in place
  and appends a fresh key at the end (insertion order);
* a symbol string `"BASE/QUOTE"` is modelled as the pair of its two
  components; the source only ever uses `symbol.split("/")[0]`, which is
  the `base` component;
* exceptions (`InsufficientFunds`, `KeyError`) become `Except` results,
  with the state returned alongside so that partially applied mutations
  made before the raise are kept, exactly as in the in-place-mutating
  Python code;
* order ids are kept as the `Nat` counter value (`str(self._oid_counter)`
  in the source is an injective rendering of it).
-/

namespace Replay

/-- A trading symbol `"BASE/QUOTE"`, split into its two components.
`base` is what the source computes as `symbol.split("/")[0]`. -/
structure Sym where
  base : String
  quote : String
deriving DecidableEq, Repr

/-- One ticker event (a row of the `tickers` list in the event file):
timestamp plus optional `last` / `bid` / `ask` prices.  A missing field
(`None` in Python) is `none`. -/
structure Snapshot where
  timestamp : Int
  last : Option ℚ
  bid : Option ℚ
  ask : Option ℚ
deriving DecidableEq, Repr

/-- A per-asset balance row `{"free": ..., "used": ...}`. -/
structure Balance where
  free : ℚ
  used : ℚ
deriving DecidableEq, Repr

inductive Side where
  | buy
  | sell
deriving DecidableEq, Repr

/-- A simulated order record, as built by `POST /orders`. -/
structure Order where
  oid : Nat
  symbol : Sym
  side : Side
  otype : String
  status : String
  price : ℚ
  amount : ℚ
  filled : ℚ
  remaining : ℚ
  cost : ℚ
  created_at : Int
  updated_at : Int
deriving DecidableEq, Repr

/-- The payload of `POST /orders` / `POST /orders/can_execute`:
`{symbol, side, type, amount, price?}`. -/
structure OrderReq where
  symbol : Sym
  side : Side
  otype : String
  amount : ℚ
  price : Option ℚ
deriving DecidableEq, Repr

/-- The exceptions the backend can raise on these paths:
`InsufficientFunds` (domain error) and `KeyError` (lookup failure). -/
inductive EngineError where
  | insufficientFunds (msg : String)
  | keyError (msg : String)
deriving DecidableEq, Repr

/-- The mutable state of a `ReplayBackend` instance.
`tickers` is `_tickers_by_symbol` (grouped, per-symbol-sorted event
lists), `cursor` is `_cursor_index`, `balances` is `_balances`,
`orders` is `_orders`, `oidCounter` is `_oid_counter`.
`autoAdvance` is not modelled: it only triggers an extra
`advance(steps=1)` inside `GET /tickers`, which none of the checked
claims exercise. -/
structure ReplayState where
  tickers : List (Sym × List Snapshot)
  cursor : List (Sym × Nat)
  balances : List (String × Balance)
  orders : List (Nat × Order)
  oidCounter : Nat
  strict : Bool
deriving DecidableEq, Repr

/-! ### Association lists with Python-dict semantics -/

/-- Python dict read `d.get(key)`: first (= only, keys are unique in a
dict) entry with the key. -/
def alookup {κ α : Type} [DecidableEq κ] : List (κ × α) → κ → Option α
  | [], _ => none
  | (k, v) :: rest, key => if k = key then some v else alookup rest key

/-- Python dict write `d[key] = val`: replace in place when the key is
present, append at the end when it is new. -/
def aset {κ α : Type} [DecidableEq κ] : List (κ × α) → κ → α → List (κ × α)
  | [], key, val => [(key, val)]
  | (k, v) :: rest, key, val =>
      if k = key then (key, val) :: rest else (k, v) :: aset rest key val

theorem alookup_aset_self {κ α : Type} [DecidableEq κ]
    (l : List (κ × α)) (k : κ) (v : α) : alookup (aset l k v) k = some v := by
  induction l with
  | nil => simp [aset, alookup]
  | cons p rest ih =>
      obtain ⟨pk, pv⟩ := p
      by_cases h : pk = k
      · simp [aset, alookup, h]
      · simp [aset, alookup, h, ih]

theorem alookup_aset_ne {κ α : Type} [DecidableEq κ]
    (l : List (κ × α)) (k k2 : κ) (v : α) (hne : k2 ≠ k) :
    alookup (aset l k v) k2 = alookup l k2 := by
  have hk2 : ¬ k = k2 := fun hh => hne hh.symm
  induction l with
  | nil => simp [aset, alookup, hk2]
  | cons p rest ih =>
      obtain ⟨pk, pv⟩ := p
      by_cases h : pk = k
      · simp [aset, alookup, h, hk2]
      · simp [aset, alookup, h, ih]

theorem alookup_aset {κ α : Type} [DecidableEq κ]
    (l : List (κ × α)) (k k2 : κ) (v : α) :
    alookup (aset l k v) k2 = if k2 = k then some v else alookup l k2 := by
  by_cases h : k2 = k
  · subst h; simp [alookup_aset_self]
  · simp [h, alookup_aset_ne l k k2 v h]

theorem alookup_mem {κ α : Type} [DecidableEq κ]
    {l : List (κ × α)} {k : κ} {v : α} (h : alookup l k = some v) : (k, v) ∈ l := by
  induction l with
  | nil => simp [alookup] at h
  | cons p rest ih =>
      obtain ⟨pk, pv⟩ := p
      by_cases hk : pk = k
      · simp only [alookup] at h
        rw [if_pos hk] at h
        obtain rfl : pv = v := Option.some.inj h
        rw [← hk]
        exact List.mem_cons_self _ _
      · simp only [alookup] at h
        rw [if_neg hk] at h
        exact List.mem_cons_of_mem _ (ih h)

theorem mem_aset {κ α : Type} [DecidableEq κ]
    {l : List (κ × α)} {k : κ} {v : α} {p : κ × α} (h : p ∈ aset l k v) :
    p = (k, v) ∨ p ∈ l := by
  induction l with
  | nil => simpa [aset] using h
  | cons q rest ih =>
      obtain ⟨qk, qv⟩ := q
      by_cases hk : qk = k
      · simp only [aset] at h
        rw [if_pos hk] at h
        rcases List.mem_cons.mp h with h1 | h1
        · exact Or.inl h1
        · exact Or.inr (List.mem_cons_of_mem _ h1)
      · simp only [aset] at h
        rw [if_neg hk] at h
        rcases List.mem_cons.mp h with h1 | h1
        · exact Or.inr (h1 ▸ List.mem_cons_self (qk, qv) rest)
        · rcases ih h1 with h2 | h2
          · exact Or.inl h2
          · exact Or.inr (List.mem_cons_of_mem _ h2)

theorem aset_aset {κ α : Type} [DecidableEq κ]
    (l : List (κ × α)) (k : κ) (v w : α) :
    aset (aset l k v) k w = aset l k w := by
  induction l with
  | nil => simp [aset]
  | cons p rest ih =>
      obtain ⟨pk, pv⟩ := p
      by_cases h : pk = k
      · simp [aset, h]
      · simp [aset, h, ih]

/-! ### Engine operations, translated from `ReplayBackend` -/

/-- Models `bisect.bisect_right(ts_list, to_timestamp)`.  On the sorted lists
the backend builds (each symbol's events are sorted by timestamp at
construction), the library's binary search returns the insertion point
after any equal entries, i.e. the length of the largest prefix of
elements `≤ t`, which is what this linear form computes. -/
def bisectRight (tl : List Int) (t : Int) : Nat :=
  (tl.takeWhile (fun x => decide (x ≤ t))).length

/-- Models the read `balances.get(asset).get("free", 0.0)` with a fallback
row: the free
quantity of an asset, `0` when the asset has no ledger row. -/
def assetFree (bs : List (String × Balance)) (asset : String) : ℚ :=
  ((alookup bs asset).map Balance.free).getD 0

/-- Method `ReplayBackend.current_timestamp`, as a function of the two pieces
of state it reads.  For each symbol the cursor points into a non-empty
timeline in every reachable state; a dangling symbol (Python would
raise `KeyError`) or out-of-range index (Python `IndexError`) is
skipped / read as `0` to keep the function total. -/
def currentTimestampAux (cursor : List (Sym × Nat))
    (tickers : List (Sym × List Snapshot)) : Int :=
  cursor.foldl (fun ts p =>
    match alookup tickers p.1 with
    | none => ts
    | some lst =>
        if lst.isEmpty then ts
        else max ts (((lst.get? p.2).map Snapshot.timestamp).getD 0)) 0

def currentTimestamp (s : ReplayState) : Int :=
  currentTimestampAux s.cursor s.tickers

/-- Method `advance(to_timestamp=t)`: per symbol, binary-search the rightmost
index with timestamp `≤ t`; assign it only when it exists (`idx >= 0`).
The Python method also returns `current_timestamp()`, which the claims
do not use; only the state transition is modelled. -/
def advanceTo (s : ReplayState) (t : Int) : ReplayState :=
  { s with cursor := s.tickers.foldl (fun cur e =>
      let idx : Int := (bisectRight (e.2.map Snapshot.timestamp) t : Int) - 1
      if 0 ≤ idx then aset cur e.1 idx.toNat else cur) s.cursor }

/-- Method `advance(steps=n)`: per symbol, `cursor = min(cursor + n, len(lst) - 1)`.
`self._cursor_index[sym]` always exists in reachable states; the `getD 0`
default stands in for Python's `KeyError` on malformed states. -/
def advanceSteps (s : ReplayState) (n : Nat) : ReplayState :=
  { s with cursor := s.tickers.foldl (fun cur e =>
      aset cur e.1 (min ((alookup cur e.1).getD 0 + n) (e.2.length - 1))) s.cursor }

/-- The snapshot `_resolve_price` and `GET /tickers/{symbol}` read:
`self._tickers_by_symbol[symbol][self._cursor_index[symbol]]`.  `none`
when the symbol is unknown or its list is empty (`if not sym_ticks`),
or — unreachable for reachable states — when the cursor is out of range
(Python `IndexError`). -/
def currentSnap (s : ReplayState) (sym : Sym) : Option Snapshot :=
  match alookup s.tickers sym with
  | none => none
  | some lst =>
      if lst.isEmpty then none
      else lst.get? ((alookup s.cursor sym).getD 0)

/-- Method `ReplayBackend._resolve_price`. -/
def resolvePrice (s : ReplayState) (sym : Sym) (explicitPrice : Option ℚ) : ℚ :=
  match explicitPrice with
  | some p => p
  | none =>
      match currentSnap s sym with
      | none => 0
      | some snap =>
          match snap.last with
          | some l => l
          | none =>
              match snap.bid, snap.ask with
              | some b, some a => (b + a) / 2
              | _, _ => 0

/-- Result of `GET /tickers/{symbol}`: either the current snapshot dict
or, for an unknown symbol in non-strict mode, the placeholder dict
`{"symbol": ..., "timestamp": current_timestamp(), "last": None,
"bid": None, "ask": None}`. -/
inductive TickerResult where
  | snap (sn : Snapshot)
  | placeholder (sym : Sym) (timestamp : Int)
deriving DecidableEq, Repr

/-- Endpoint `GET /tickers/{symbol}` (`ReplayBackend.get`, unknown-symbol branch
plus snapshot read). -/
def getTicker (s : ReplayState) (sym : Sym) : Except EngineError TickerResult :=
  match alookup s.tickers sym with
  | none =>
      if s.strict then
        .error (.keyError ("Unknown symbol " ++ sym.base ++ "/" ++ sym.quote))
      else
        .ok (.placeholder sym (currentTimestamp s))
  | some lst =>
      match lst.get? ((alookup s.cursor sym).getD 0) with
      | some sn => .ok (.snap sn)
      | none => .error (.keyError "index out of range")

/-- Endpoint `POST /orders` (`ReplayBackend.post`, order-creation branch).
The returned state reflects every in-place mutation made before a raise:
in particular `self._oid_counter += 1` happens first, so both error
returns carry the incremented counter.  `wallClock` stands for
`int(time.time() * 1000)`, used by `now = self.current_timestamp() or ...`
only when the replay timestamp is `0`.  The `setdefault` + `+=` pair of
the source is expressed as one lookup-with-default followed by a store,
which yields the identical dict. -/
def createOrder (s : ReplayState) (req : OrderReq) (wallClock : Int) :
    Except EngineError Order × ReplayState :=
  let s1 : ReplayState := { s with oidCounter := s.oidCounter + 1 }
  let oid := s1.oidCounter
  let amt := req.amount
  let price := resolvePrice s req.symbol req.price
  let cost := amt * price
  let now : Int := if currentTimestamp s = 0 then wallClock else currentTimestamp s
  let newOrder : Order :=
    { oid := oid, symbol := req.symbol, side := req.side, otype := req.otype,
      status := "filled", price := price, amount := amt, filled := amt,
      remaining := 0, cost := cost, created_at := now, updated_at := now }
  match req.side with
  | .buy =>
      if assetFree s1.balances "USDT" < cost then
        (.error (.insufficientFunds "not enough USDT"), s1)
      else
        match alookup s1.balances "USDT" with
        | none => (.error (.keyError "USDT"), s1)
        | some ub =>
            let bal2 := aset s1.balances "USDT" { ub with free := ub.free - cost }
            let base := req.symbol.base
            let bb := (alookup bal2 base).getD { free := 0, used := 0 }
            let bal3 := aset bal2 base { bb with free := bb.free + amt }
            (.ok newOrder,
              { s1 with balances := bal3, orders := aset s1.orders oid newOrder })
  | .sell =>
      let base := req.symbol.base
      if assetFree s1.balances base < amt then
        (.error (.insufficientFunds "not enough asset"), s1)
      else
        match alookup s1.balances base with
        | none => (.error (.keyError base), s1)
        | some bb =>
            let bal2 := aset s1.balances base { bb with free := bb.free - amt }
            let ub := (alookup bal2 "USDT").getD { free := 0, used := 0 }
            let bal3 := aset bal2 "USDT" { ub with free := ub.free + cost }
            (.ok newOrder,
              { s1 with balances := bal3, orders := aset s1.orders oid newOrder })

/-- Endpoint `POST /orders/{oid}/cancel` (`ReplayBackend.post`, cancel branch):
in-place mutation of the stored order's `status` and `updated_at`;
`KeyError` when the id is unknown. -/
def cancelOrder (s : ReplayState) (oid : Nat) : Except EngineError Order × ReplayState :=
  match alookup s.orders oid with
  | none => (.error (.keyError "order not found"), s)
  | some o =>
      let o2 := { o with status := "canceled", updated_at := currentTimestamp s }
      (.ok o2, { s with orders := aset s.orders oid o2 })

/-- Endpoint `POST /orders/can_execute`: the dry-run predicate.  The method only
reads state; the returned state is the receiver unchanged. -/
def canExecute (s : ReplayState) (req : OrderReq) : Bool × ReplayState :=
  let price := resolvePrice s req.symbol req.price
  match req.side with
  | .buy => (decide (assetFree s.balances "USDT" ≥ req.amount * price), s)
  | .sell => (decide (assetFree s.balances req.symbol.base ≥ req.amount), s)

/-- One externally triggerable state-mutating (or dry-run) engine call. -/
inductive Op where
  | advTo (t : Int)
  | advSteps (n : Nat)
  | create (req : OrderReq) (wallClock : Int)
  | cancel (oid : Nat)
  | canExec (req : OrderReq)
deriving DecidableEq, Repr

/-- The state component of running one operation. -/
def applyOp (s : ReplayState) : Op → ReplayState
  | .advTo t => advanceTo s t
  | .advSteps n => advanceSteps s n
  | .create req wc => (createOrder s req wc).2
  | .cancel oid => (cancelOrder s oid).2
  | .canExec req => (canExecute s req).2

/-! ### Concrete fixtures used by witnesses and counterexamples -/

def btcusdt : Sym := ⟨"BTC", "USDT"⟩

def ethbtc : Sym := ⟨"ETH", "BTC"⟩

def dogeusdt : Sym := ⟨"DOGE", "USDT"⟩

def exOrder : Order :=
  { oid := 1, symbol := btcusdt, side := .buy, otype := "market", status := "filled",
    price := 50000, amount := 1, filled := 1, remaining := 0, cost := 50000,
    created_at := 1710000000000, updated_at := 1710000000000 }

def exTimeline : List Snapshot :=
  [⟨1710000000000, some 50000, some 49990, some 50010⟩,
   ⟨1710000000500, some 50010, some 50000, some 50020⟩,
   ⟨1710000001000, none, some 49000, some 51000⟩]

def exState : ReplayState :=
  { tickers := [(btcusdt, exTimeline)],
    cursor := [(btcusdt, 1)],
    balances := [("USDT", ⟨10000, 0⟩), ("BTC", ⟨1, 0⟩)],
    orders := [(1, exOrder)],
    oidCounter := 1,
    strict := true }

/-- A state whose only liquid asset is 100 USDT (BTC row present but
empty), with no ticker data, in strict mode. -/
def crossState : ReplayState :=
  { tickers := [], cursor := [],
    balances := [("USDT", ⟨100, 0⟩), ("BTC", ⟨0, 0⟩)],
    orders := [], oidCounter := 0, strict := true }

/-- A limit buy of 1 ETH on the BTC-quoted symbol `ETH/BTC` at price 10:
its quote asset is BTC, of which `crossState` has none. -/
def crossReq : OrderReq := ⟨ethbtc, .buy, "limit", 1, some 10⟩

/-- A buy far beyond the 100 USDT held in `crossState`. -/
def poorReq : OrderReq := ⟨btcusdt, .buy, "market", 1, some 999999⟩

/-- A market buy on a symbol with no timeline at all. -/
def dogeReq : OrderReq := ⟨dogeusdt, .buy, "market", 5, none⟩

/-! ### C1: price resolution priority chain -/

/-- C1: the resolved fill price follows the strict priority chain: an
explicit price is used verbatim; otherwise the current snapshot's `last`
when present (regardless of bid/ask); otherwise the bid/ask midpoint
when both are present; otherwise `0.0` (also when there is no current
snapshot at all).  Orders created by `POST /orders` carry exactly this
price, and `can_execute` compares the balance against exactly this
price. -/
theorem c1_price_resolution_priority_chain :
    (∀ (s : ReplayState) (sym : Sym) (p : ℚ), resolvePrice s sym (some p) = p)
    ∧ (∀ (s : ReplayState) (sym : Sym) (snap : Snapshot) (l : ℚ),
        currentSnap s sym = some snap → snap.last = some l →
        resolvePrice s sym none = l)
    ∧ (∀ (s : ReplayState) (sym : Sym) (snap : Snapshot) (b a : ℚ),
        currentSnap s sym = some snap → snap.last = none →
        snap.bid = some b → snap.ask = some a →
        resolvePrice s sym none = (b + a) / 2)
    ∧ (∀ (s : ReplayState) (sym : Sym) (snap : Snapshot),
        currentSnap s sym = some snap → snap.last = none →
        (snap.bid = none ∨ snap.ask = none) →
        resolvePrice s sym none = 0)
    ∧ (∀ (s : ReplayState) (sym : Sym),
        currentSnap s sym = none → resolvePrice s sym none = 0)
    ∧ (∀ (s : ReplayState) (req : OrderReq) (wc : Int) (o : Order),
        (createOrder s req wc).1 = Except.ok o →
        o.price = resolvePrice s req.symbol req.price)
    ∧ (∀ (s : ReplayState) (req : OrderReq),
        (canExecute s req).1 = true ↔
          (match req.side with
           | .buy => req.amount * resolvePrice s req.symbol req.price
               ≤ assetFree s.balances "USDT"
           | .sell => req.amount ≤ assetFree s.balances req.symbol.base)) := by
  refine ⟨?_, ?_, ?_, ?_, ?_, ?_, ?_⟩
  · intro s sym p; rfl
  · intro s sym snap l hs hl; simp [resolvePrice, hs, hl]
  · intro s sym snap b a hs hl hb ha; simp [resolvePrice, hs, hl, hb, ha]
  · intro s sym snap hs hl hba
    rcases hba with hb | ha
    · simp [resolvePrice, hs, hl, hb]
    · cases hb : snap.bid <;> simp [resolvePrice, hs, hl, hb, ha]
  · intro s sym hs; simp [resolvePrice, hs]
  · intro s req wc o h
    obtain ⟨sym, side, ot, amt, pr⟩ := req
    cases side with
    | buy =>
        by_cases hc : assetFree s.balances "USDT" < amt * resolvePrice s sym pr
        · simp [createOrder, hc] at h
        · cases hu : alookup s.balances "USDT" with
          | none => simp [createOrder, hc, hu] at h
          | some ub =>
              simp [createOrder, hc, hu] at h
              rw [← h]
    | sell =>
        by_cases hc : assetFree s.balances sym.base < amt
        · simp [createOrder, hc] at h
        · cases hu : alookup s.balances sym.base with
          | none => simp [createOrder, hc, hu] at h
          | some bb =>
              simp [createOrder, hc, hu] at h
              rw [← h]
  · intro s req
    obtain ⟨sym, side, ot, amt, pr⟩ := req
    cases side <;> simp [canExecute, ge_iff_le]

/-- C1 witness: on `exState` (cursor at index 1, `last = 50010`,
`bid = 50000`, `ask = 50020`) a market order resolves to the `last`
price, not the midpoint; at cursor 2 (`last = None`) it resolves to the
bid/ask midpoint 50000. -/
theorem c1_witness :
    resolvePrice exState btcusdt none = 50010
    ∧ resolvePrice (advanceSteps exState 1) btcusdt none = (49000 + 51000) / 2 := by
  constructor
  · exact c1_price_resolution_priority_chain.2.1 exState btcusdt
      ⟨1710000000500, some 50010, some 50000, some 50020⟩ 50010 (by decide) (by decide)
  · exact c1_price_resolution_priority_chain.2.2.1 (advanceSteps exState 1) btcusdt
      ⟨1710000001000, none, some 49000, some 51000⟩ 49000 51000
      (by decide) (by decide) (by decide) (by decide)

/-! ### C2: insufficient-funds condition -/

/-- Decision of whether an `Except` result is an `InsufficientFunds`
raise (as opposed to success or a `KeyError`). -/
def isInsufficientFunds : Except EngineError Order → Bool
  | .error (.insufficientFunds _) => true
  | _ => false

/-- The side-specific balance check the backend performs: for a buy it
compares the hardcoded `"USDT"` row (not the symbol's quote asset)
against `amount * resolved price`; for a sell it compares the base-asset
row against `amount`. -/
def insuffCond (s : ReplayState) (req : OrderReq) : Bool :=
  match req.side with
  | .buy => decide (assetFree s.balances "USDT"
      < req.amount * resolvePrice s req.symbol req.price)
  | .sell => decide (assetFree s.balances req.symbol.base < req.amount)

/-- C2 (amended): order creation raises `InsufficientFunds` exactly when
the side-specific check fails — buy: the ledger's `USDT` free balance
(the engine hardcodes USDT as quote currency, not the symbol's quote
asset) is `< amount * resolved price`; sell: the base-asset free balance
is `< amount` — and `can_execute` on the same payload in the same state
returns `false` exactly under that same condition, using the same
price-resolution and balance-check logic, and leaves the state
unchanged. -/
theorem c2_insufficient_funds_iff (s : ReplayState) (req : OrderReq) (wc : Int) :
    isInsufficientFunds (createOrder s req wc).1 = insuffCond s req
    ∧ (canExecute s req).1 = !(insuffCond s req)
    ∧ (canExecute s req).2 = s := by
  obtain ⟨sym, side, ot, amt, pr⟩ := req
  cases side with
  | buy =>
      refine ⟨?_, ?_, ?_⟩
      · by_cases hc : assetFree s.balances "USDT" < amt * resolvePrice s sym pr
        · simp [createOrder, insuffCond, isInsufficientFunds, hc]
        · cases hu : alookup s.balances "USDT" <;>
            simp [createOrder, insuffCond, isInsufficientFunds, hc, hu]
      · by_cases hc : assetFree s.balances "USDT" < amt * resolvePrice s sym pr
        · simp [canExecute, insuffCond, hc, not_le.mpr hc]
        · simp [canExecute, insuffCond, hc, not_lt.mp hc]
      · simp [canExecute]
  | sell =>
      refine ⟨?_, ?_, ?_⟩
      · by_cases hc : assetFree s.balances sym.base < amt
        · simp [createOrder, insuffCond, isInsufficientFunds, hc]
        · cases hu : alookup s.balances sym.base <;>
            simp [createOrder, insuffCond, isInsufficientFunds, hc, hu]
      · by_cases hc : assetFree s.balances sym.base < amt
        · simp [canExecute, insuffCond, hc, not_le.mpr hc]
        · simp [canExecute, insuffCond, hc, not_lt.mp hc]
      · simp [canExecute]

/-- C2 counterexample: in `crossState` the quote asset of `crossReq`
(`ETH/BTC`, quote BTC) has free balance 0, which is less than the cost
`1 * 10 = 10`, so the claim as stated demands an `InsufficientFunds`
raise — but the backend checks the hardcoded `"USDT"` row (free 100)
instead, raises nothing, and fills the order. -/
theorem c2_counterexample :
    crossReq.side = Side.buy
    ∧ assetFree crossState.balances crossReq.symbol.quote
        < crossReq.amount * resolvePrice crossState crossReq.symbol crossReq.price
    ∧ isInsufficientFunds (createOrder crossState crossReq 0).1 = false
    ∧ (createOrder crossState crossReq 0).1.isOk = true := by
  refine ⟨rfl, ?_, ?_, ?_⟩ <;>
    norm_num +decide [createOrder, crossState, crossReq, ethbtc, resolvePrice,
      currentSnap, assetFree, alookup, isInsufficientFunds, Except.isOk]

/-! ### C3: state after a failed (insufficient-funds) order -/

/-- C3 (amended): when order creation raises `InsufficientFunds`, no
funds are moved and no order is recorded — balances, cursors, the order
store, the ticker store and the strict flag are exactly as before the
call — but the order-id counter has already been incremented (the
increment happens before the balance check, so the failed attempt
consumes an id). -/
theorem c3_failed_create_state (s : ReplayState) (req : OrderReq) (wc : Int)
    (h : isInsufficientFunds (createOrder s req wc).1 = true) :
    (createOrder s req wc).2 = { s with oidCounter := s.oidCounter + 1 } := by
  obtain ⟨sym, side, ot, amt, pr⟩ := req
  cases side with
  | buy =>
      by_cases hc : assetFree s.balances "USDT" < amt * resolvePrice s sym pr
      · simp [createOrder, hc]
      · cases hu : alookup s.balances "USDT" <;>
          simp [createOrder, isInsufficientFunds, hc, hu] at h
  | sell =>
      by_cases hc : assetFree s.balances sym.base < amt
      · simp [createOrder, hc]
      · cases hu : alookup s.balances sym.base <;>
          simp [createOrder, isInsufficientFunds, hc, hu] at h

/-- C3 counterexample: `poorReq` (buy 1 BTC at explicit price 999999)
fails the balance check in `crossState` (100 USDT), raises
`InsufficientFunds` — and the resulting engine state is NOT equal to the
state before the call: the order-id counter moved from 0 to 1. -/
theorem c3_counterexample :
    isInsufficientFunds (createOrder crossState poorReq 0).1 = true
    ∧ (createOrder crossState poorReq 0).2 ≠ crossState
    ∧ (createOrder crossState poorReq 0).2.oidCounter = 1
    ∧ crossState.oidCounter = 0 := by
  have h1 : isInsufficientFunds (createOrder crossState poorReq 0).1 = true := by
    norm_num +decide [createOrder, crossState, poorReq, btcusdt, resolvePrice,
      currentSnap, assetFree, alookup, isInsufficientFunds]
  have h2 : (createOrder crossState poorReq 0).2.oidCounter = 1 := by
    norm_num +decide [createOrder, crossState, poorReq, btcusdt, resolvePrice,
      currentSnap, assetFree, alookup]
  refine ⟨h1, ?_, h2, rfl⟩
  intro hcontra
  rw [hcontra] at h2
  exact absurd h2 (by decide)

/-- C3 witness for the amended statement, at the same failing input:
the state after the failed call is the old state with only the counter
bumped. -/
theorem c3_witness :
    (createOrder crossState poorReq 0).2
      = { crossState with oidCounter := crossState.oidCounter + 1 } :=
  c3_failed_create_state crossState poorReq 0
    (by norm_num +decide [createOrder, crossState, poorReq, btcusdt, resolvePrice,
      currentSnap, assetFree, alookup, isInsufficientFunds])

/-! ### C4: effects of a successful buy -/

theorem getD_free_eq_assetFree (bs : List (String × Balance)) (a : String) :
    ((alookup bs a).getD { free := 0, used := 0 }).free = assetFree bs a := by
  cases h : alookup bs a <;> simp [assetFree, h]

/-- A limit buy of 2 BTC at price 100 — affordable in `exState`. -/
def limitReq : OrderReq := ⟨btcusdt, .buy, "limit", 2, some 100⟩

/-- C4 (amended): a buy that passes the balance check debits the free
balance of the hardcoded `"USDT"` row (the engine treats USDT as the
quote currency for every symbol, not the symbol's own quote asset) by
exactly `cost = amount * resolved price`, credits the base asset's free
balance by exactly `amount`, and records a new order with status
`"filled"`, `filled = amount`, `remaining = 0.0` and
`cost = amount * price`; cursors, tickers and all other orders are
untouched. -/
theorem c4_buy_fill_effects (s : ReplayState) (req : OrderReq) (wc : Int) (ub : Balance)
    (hside : req.side = Side.buy)
    (hu : alookup s.balances "USDT" = some ub)
    (hbase : req.symbol.base ≠ "USDT")
    (hok : ¬ ub.free < req.amount * resolvePrice s req.symbol req.price) :
    ∃ o : Order,
      (createOrder s req wc).1 = Except.ok o
      ∧ o.oid = s.oidCounter + 1
      ∧ o.status = "filled"
      ∧ o.amount = req.amount
      ∧ o.filled = req.amount
      ∧ o.remaining = 0
      ∧ o.price = resolvePrice s req.symbol req.price
      ∧ o.cost = req.amount * resolvePrice s req.symbol req.price
      ∧ alookup (createOrder s req wc).2.balances "USDT"
          = some { ub with free := ub.free - req.amount * resolvePrice s req.symbol req.price }
      ∧ assetFree (createOrder s req wc).2.balances req.symbol.base
          = assetFree s.balances req.symbol.base + req.amount
      ∧ alookup (createOrder s req wc).2.orders (s.oidCounter + 1) = some o
      ∧ (∀ k, k ≠ s.oidCounter + 1 →
          alookup (createOrder s req wc).2.orders k = alookup s.orders k)
      ∧ (createOrder s req wc).2.cursor = s.cursor
      ∧ (createOrder s req wc).2.tickers = s.tickers := by
  obtain ⟨sym, side, ot, amt, pr⟩ := req
  cases hside
  have husdt : ("USDT" : String) ≠ sym.base := fun hh => hbase hh.symm
  have hc : ¬ assetFree s.balances "USDT" < amt * resolvePrice s sym pr := by
    simpa [assetFree, hu] using hok
  have hok2 : ¬ ub.free < amt * resolvePrice s sym pr := by simpa using hok
  refine Exists.intro
    { oid := s.oidCounter + 1, symbol := sym, side := Side.buy, otype := ot,
      status := "filled", price := resolvePrice s sym pr, amount := amt,
      filled := amt, remaining := 0, cost := amt * resolvePrice s sym pr,
      created_at := if currentTimestamp s = 0 then wc else currentTimestamp s,
      updated_at := if currentTimestamp s = 0 then wc else currentTimestamp s }
    ⟨?_, rfl, rfl, rfl, rfl, rfl, rfl, rfl, ?_, ?_, ?_, ?_, ?_, ?_⟩
  · simp [createOrder, hu, hc]
  · simp [createOrder, hu, hc, alookup_aset_ne _ _ _ _ husdt, alookup_aset_self]
  · simp [createOrder, hu, hc, hok2, assetFree, alookup_aset_self,
      alookup_aset_ne _ _ _ _ hbase, getD_free_eq_assetFree]
  · simp [createOrder, hu, hc, alookup_aset_self]
  · intro k hk
    simp [createOrder, hu, hc, alookup_aset_ne _ _ _ _ hk]
  · simp [createOrder, hu, hc]
  · simp [createOrder, hu, hc]

/-- C4 witness: in `exState` (`USDT.free = 10000`, `BTC.free = 1`),
buying 2 BTC at explicit price 100 yields a filled order with cost 200,
`USDT.free = 9800` and `BTC.free = 3`. -/
theorem c4_witness :
    ∃ o : Order,
      (createOrder exState limitReq 0).1 = Except.ok o
      ∧ o.oid = exState.oidCounter + 1
      ∧ o.status = "filled"
      ∧ o.amount = limitReq.amount
      ∧ o.filled = limitReq.amount
      ∧ o.remaining = 0
      ∧ o.price = resolvePrice exState limitReq.symbol limitReq.price
      ∧ o.cost = limitReq.amount * resolvePrice exState limitReq.symbol limitReq.price
      ∧ alookup (createOrder exState limitReq 0).2.balances "USDT"
          = some { free := (10000 : ℚ) - 2 * 100, used := 0 }
      ∧ assetFree (createOrder exState limitReq 0).2.balances limitReq.symbol.base
          = assetFree exState.balances limitReq.symbol.base + limitReq.amount
      ∧ alookup (createOrder exState limitReq 0).2.orders (exState.oidCounter + 1) = some o
      ∧ (∀ k, k ≠ exState.oidCounter + 1 →
          alookup (createOrder exState limitReq 0).2.orders k = alookup exState.orders k)
      ∧ (createOrder exState limitReq 0).2.cursor = exState.cursor
      ∧ (createOrder exState limitReq 0).2.tickers = exState.tickers :=
  c4_buy_fill_effects exState limitReq 0 ⟨10000, 0⟩ rfl (by decide) (by decide)
    (by norm_num [limitReq, resolvePrice, btcusdt])

/-- C4 counterexample: the successful `ETH/BTC` buy in `crossState`
leaves the quote asset BTC's ledger row exactly as it was (free 0) even
though the cost is 10 — the claim's "debits the quote asset's free
balance by exactly cost" fails; the debit went to the hardcoded USDT
row. -/
theorem c4_counterexample :
    crossReq.side = Side.buy
    ∧ (createOrder crossState crossReq 0).1.isOk = true
    ∧ crossReq.amount * resolvePrice crossState crossReq.symbol crossReq.price = 10
    ∧ alookup (createOrder crossState crossReq 0).2.balances crossReq.symbol.quote
        = some { free := 0, used := 0 }
    ∧ alookup crossState.balances crossReq.symbol.quote = some { free := 0, used := 0 }
    ∧ assetFree (createOrder crossState crossReq 0).2.balances "USDT" = 100 - 10 := by
  refine ⟨rfl, ?_, ?_, ?_, ?_, ?_⟩ <;>
    norm_num +decide [createOrder, crossState, crossReq, ethbtc, resolvePrice,
      currentSnap, assetFree, alookup, aset, Except.isOk]

/-! ### Per-symbol analysis of the advance folds -/

theorem alookup_foldl_of_not_mem {β : Type}
    (f : List (Sym × Nat) → (Sym × β) → List (Sym × Nat))
    (hother : ∀ cur e k, k ≠ e.1 → alookup (f cur e) k = alookup cur k) :
    ∀ (es : List (Sym × β)) (cur : List (Sym × Nat)) (sym : Sym),
      sym ∉ es.map Prod.fst →
      alookup (es.foldl f cur) sym = alookup cur sym := by
  intro es
  induction es with
  | nil => intro cur sym _; rfl
  | cons e rest ih =>
      intro cur sym hnm
      simp only [List.map_cons, List.mem_cons, not_or] at hnm
      rw [List.foldl_cons, ih _ _ hnm.2, hother _ _ _ hnm.1]

/-- Each iteration of the advance folds touches only its own entry's
key; with distinct keys (a dict can have no duplicates), the final
cursor value of a present symbol is its own entry's update applied to
the initial value. -/
theorem alookup_foldl_of_mem {β : Type}
    (f : List (Sym × Nat) → (Sym × β) → List (Sym × Nat))
    (g : (Sym × β) → Option Nat → Option Nat)
    (hother : ∀ cur e k, k ≠ e.1 → alookup (f cur e) k = alookup cur k)
    (hown : ∀ cur e, alookup (f cur e) e.1 = g e (alookup cur e.1)) :
    ∀ (es : List (Sym × β)) (cur : List (Sym × Nat)) (sym : Sym) (x : β),
      (es.map Prod.fst).Nodup → (sym, x) ∈ es →
      alookup (es.foldl f cur) sym = g (sym, x) (alookup cur sym) := by
  intro es
  induction es with
  | nil => intro _ _ _ _ hm; cases hm
  | cons e rest ih =>
      intro cur sym x hnd hm
      simp only [List.map_cons, List.nodup_cons] at hnd
      rcases List.mem_cons.mp hm with h1 | h1
      · have hk : e.1 = sym := by rw [← h1]
        have hnotin : sym ∉ rest.map Prod.fst := by rw [← hk]; exact hnd.1
        rw [List.foldl_cons, alookup_foldl_of_not_mem f hother rest _ sym hnotin]
        have hx := hown cur e
        rw [hk] at hx
        rw [hx, ← h1]
      · have hmem2 : sym ∈ rest.map Prod.fst := List.mem_map.mpr ⟨(sym, x), h1, rfl⟩
        have hksym : sym ≠ e.1 := fun hcontra => hnd.1 (hcontra ▸ hmem2)
        rw [List.foldl_cons, ih _ _ _ hnd.2 h1, hother _ _ _ hksym]

/-! ### Properties of the binary search -/

theorem bisectRight_cons (x : Int) (xs : List Int) (t : Int) :
    bisectRight (x :: xs) t = if x ≤ t then bisectRight xs t + 1 else 0 := by
  by_cases h : x ≤ t <;> simp [bisectRight, List.takeWhile_cons, h]

theorem bisectRight_get_le (t : Int) :
    ∀ (tl : List Int) (i : Nat), i < bisectRight tl t →
      ∃ v, tl.get? i = some v ∧ v ≤ t := by
  intro tl
  induction tl with
  | nil => intro i h; simp [bisectRight] at h
  | cons x xs ih =>
      intro i h
      rw [bisectRight_cons] at h
      by_cases hx : x ≤ t
      · rw [if_pos hx] at h
        cases i with
        | zero => exact ⟨x, rfl, hx⟩
        | succ j => exact ih j (by omega)
      · rw [if_neg hx] at h; omega

theorem bisectRight_get_gt (t : Int) :
    ∀ (tl : List Int) (v : Int), tl.get? (bisectRight tl t) = some v → t < v := by
  intro tl
  induction tl with
  | nil => intro v h; simp at h
  | cons x xs ih =>
      intro v h
      rw [bisectRight_cons] at h
      by_cases hx : x ≤ t
      · rw [if_pos hx] at h
        exact ih v h
      · rw [if_neg hx] at h
        simp at h
        omega

theorem sorted_get?_mono :
    ∀ (tl : List Int), tl.Pairwise (· ≤ ·) →
      ∀ (i j : Nat) (a b : Int), i ≤ j → tl.get? i = some a → tl.get? j = some b →
        a ≤ b := by
  intro tl
  induction tl with
  | nil => intro _ i j a b _ ha _; simp at ha
  | cons x xs ih =>
      intro hp i j a b hij ha hb
      rw [List.pairwise_cons] at hp
      cases i with
      | zero =>
          simp only [List.get?] at ha
          obtain rfl : x = a := Option.some.inj ha
          cases j with
          | zero =>
              simp only [List.get?] at hb
              obtain rfl : x = b := Option.some.inj hb
              exact le_refl _
          | succ j2 =>
              exact hp.1 b (List.get?_mem hb)
      | succ i2 =>
          cases j with
          | zero => omega
          | succ j2 => exact ih hp.2 i2 j2 a b (by omega) ha hb

/-! ### C5: advance(to_timestamp=T) -/

/-- C5: `advance(to_timestamp=T)` sets each symbol's cursor to the
rightmost snapshot index whose timestamp is `≤ T`; when every snapshot
of a symbol has timestamp `> T` (T before the first snapshot of its
sorted timeline), that symbol's cursor is left unchanged. -/
theorem c5_advance_to_timestamp (s : ReplayState) (t : Int) (sym : Sym)
    (lst : List Snapshot)
    (hnd : (s.tickers.map Prod.fst).Nodup)
    (hsym : alookup s.tickers sym = some lst)
    (hsorted : (lst.map Snapshot.timestamp).Pairwise (· ≤ ·)) :
    ((∀ sn ∈ lst, t < sn.timestamp) →
        alookup (advanceTo s t).cursor sym = alookup s.cursor sym)
    ∧ (∀ (k : Nat) (v : Int), (lst.map Snapshot.timestamp).get? k = some v → v ≤ t →
        ∃ m : Nat, alookup (advanceTo s t).cursor sym = some m
          ∧ (∃ vm, (lst.map Snapshot.timestamp).get? m = some vm ∧ vm ≤ t)
          ∧ (∀ (j : Nat) (vj : Int),
              (lst.map Snapshot.timestamp).get? j = some vj → vj ≤ t → j ≤ m)) := by
  have hmem : (sym, lst) ∈ s.tickers := alookup_mem hsym
  have hfold : alookup (advanceTo s t).cursor sym
      = (if 0 ≤ (bisectRight (lst.map Snapshot.timestamp) t : Int) - 1
          then some ((bisectRight (lst.map Snapshot.timestamp) t : Int) - 1).toNat
          else alookup s.cursor sym) := by
    have h := alookup_foldl_of_mem
      (fun cur e =>
        if 0 ≤ (bisectRight (e.2.map Snapshot.timestamp) t : Int) - 1
        then aset cur e.1 ((bisectRight (e.2.map Snapshot.timestamp) t : Int) - 1).toNat
        else cur)
      (fun e v =>
        if 0 ≤ (bisectRight (e.2.map Snapshot.timestamp) t : Int) - 1
        then some ((bisectRight (e.2.map Snapshot.timestamp) t : Int) - 1).toNat
        else v)
      (fun cur e k hk => by
        by_cases h0 : 0 ≤ (bisectRight (e.2.map Snapshot.timestamp) t : Int) - 1
        · simp only [if_pos h0]; exact alookup_aset_ne _ _ _ _ hk
        · simp only [if_neg h0])
      (fun cur e => by
        by_cases h0 : 0 ≤ (bisectRight (e.2.map Snapshot.timestamp) t : Int) - 1
        · simp only [if_pos h0]; exact alookup_aset_self _ _ _
        · simp only [if_neg h0])
      s.tickers s.cursor sym lst hnd hmem
    simpa [advanceTo] using h
  have hlt : ∀ (j : Nat) (vj : Int), (lst.map Snapshot.timestamp).get? j = some vj →
      vj ≤ t → j < bisectRight (lst.map Snapshot.timestamp) t := by
    intro j vj hj hvj
    by_contra hge
    push_neg at hge
    have hjlen : j < (lst.map Snapshot.timestamp).length := by
      by_contra hgt
      push_neg at hgt
      rw [List.get?_eq_none.mpr hgt] at hj
      cases hj
    have hblen : bisectRight (lst.map Snapshot.timestamp) t
        < (lst.map Snapshot.timestamp).length := lt_of_le_of_lt hge hjlen
    obtain ⟨vc, hvc⟩ : ∃ vc, (lst.map Snapshot.timestamp).get?
        (bisectRight (lst.map Snapshot.timestamp) t) = some vc := by
      cases hvc : (lst.map Snapshot.timestamp).get?
          (bisectRight (lst.map Snapshot.timestamp) t) with
      | none =>
          rw [List.get?_eq_none] at hvc
          omega
      | some vc => exact ⟨vc, rfl⟩
    have h1 : t < vc := bisectRight_get_gt t _ vc hvc
    have h2 : vc ≤ vj := sorted_get?_mono _ hsorted _ j vc vj hge hvc hj
    omega
  constructor
  · intro hall
    have hzero : bisectRight (lst.map Snapshot.timestamp) t = 0 := by
      by_contra hb
      obtain ⟨v, hv0, hvt⟩ := bisectRight_get_le t (lst.map Snapshot.timestamp) 0
        (by omega)
      obtain ⟨sn, hsn, hsneq⟩ := List.mem_map.mp (List.get?_mem hv0)
      have := hall sn hsn
      omega
    rw [hfold, hzero]
    norm_num
  · intro k v hk hv
    have hkb := hlt k v hk hv
    have hpos : 1 ≤ bisectRight (lst.map Snapshot.timestamp) t := by omega
    refine ⟨bisectRight (lst.map Snapshot.timestamp) t - 1, ?_, ?_, ?_⟩
    · rw [hfold, if_pos (by omega)]
      congr 1
      omega
    · exact bisectRight_get_le t _ _ (by omega)
    · intro j vj hj hvj
      have := hlt j vj hj hvj
      omega

/-- C5 witness: on `exState`, jumping to a timestamp between the second
and third snapshot moves the cursor to index 1 (the rightmost snapshot
with timestamp below the target), and jumping to a timestamp before the
whole range leaves the cursor at its prior value 1. -/
theorem c5_witness :
    (∃ m : Nat, alookup (advanceTo exState 1710000000600).cursor btcusdt = some m
      ∧ (∃ vm, (exTimeline.map Snapshot.timestamp).get? m = some vm
          ∧ vm ≤ 1710000000600)
      ∧ (∀ (j : Nat) (vj : Int), (exTimeline.map Snapshot.timestamp).get? j = some vj →
          vj ≤ 1710000000600 → j ≤ m))
    ∧ alookup (advanceTo exState 1709999999999).cursor btcusdt
        = alookup exState.cursor btcusdt := by
  constructor
  · exact (c5_advance_to_timestamp exState 1710000000600 btcusdt exTimeline
      (by decide) (by decide) (by decide)).2 0 1710000000000 (by decide) (by decide)
  · exact (c5_advance_to_timestamp exState 1709999999999 btcusdt exTimeline
      (by decide) (by decide) (by decide)).1 (by decide)

/-! ### C6: advance(steps=N) -/

/-- C6: `advance(steps=N)` sets each symbol's cursor (independently per
symbol) to `min(cursor + N, len(timeline) - 1)`; over-advancing clamps
at the last index instead of erroring. -/
theorem c6_advance_steps_clamp (s : ReplayState) (n : Nat) (sym : Sym)
    (lst : List Snapshot)
    (hnd : (s.tickers.map Prod.fst).Nodup)
    (hsym : alookup s.tickers sym = some lst)
    (_hne : lst ≠ []) :
    alookup (advanceSteps s n).cursor sym
      = some (min ((alookup s.cursor sym).getD 0 + n) (lst.length - 1))
    ∧ min ((alookup s.cursor sym).getD 0 + n) (lst.length - 1) ≤ lst.length - 1 := by
  constructor
  · have hmem := alookup_mem hsym
    have h := alookup_foldl_of_mem
      (fun cur e => aset cur e.1 (min ((alookup cur e.1).getD 0 + n) (e.2.length - 1)))
      (fun e v => some (min (v.getD 0 + n) (e.2.length - 1)))
      (fun cur e k hk => alookup_aset_ne _ _ _ _ hk)
      (fun cur e => alookup_aset_self _ _ _)
      s.tickers s.cursor sym lst hnd hmem
    simpa [advanceSteps] using h
  · exact min_le_right _ _

/-- C6 witness: over-advancing by 1000 steps on the 3-element timeline
of `exState` (cursor at 1) clamps the cursor at the last index 2. -/
theorem c6_witness :
    alookup (advanceSteps exState 1000).cursor btcusdt
      = some (min ((alookup exState.cursor btcusdt).getD 0 + 1000) (exTimeline.length - 1))
    ∧ min ((alookup exState.cursor btcusdt).getD 0 + 1000) (exTimeline.length - 1)
        ≤ exTimeline.length - 1
    ∧ min ((alookup exState.cursor btcusdt).getD 0 + 1000) (exTimeline.length - 1) = 2 := by
  have h := c6_advance_steps_clamp exState 1000 btcusdt exTimeline
    (by decide) (by decide) (by decide)
  exact ⟨h.1, h.2, by decide⟩

/-! ### C7: strict mode and unknown symbols -/

/-- C7 (amended): the `strict` flag governs ticker reads — for a symbol
with no timeline, `GET /tickers/{symbol}` raises a lookup error when
`strict` is true and returns the placeholder (null-valued) ticker when
`strict` is false.  Order creation, however, performs no strict check at
all: for an unknown symbol it resolves the fill price to `0.0` and
proceeds — even in strict mode a buy succeeds (at cost 0) whenever the
USDT row exists with a nonnegative free balance. -/
theorem c7_strict_mode (s : ReplayState) (sym : Sym)
    (hno : alookup s.tickers sym = none) :
    (s.strict = true →
        getTicker s sym
          = Except.error (.keyError ("Unknown symbol " ++ sym.base ++ "/" ++ sym.quote)))
    ∧ (s.strict = false →
        getTicker s sym = Except.ok (.placeholder sym (currentTimestamp s)))
    ∧ resolvePrice s sym none = 0
    ∧ (∀ (req : OrderReq) (wc : Int) (ub : Balance),
        s.strict = true → req.symbol = sym → req.price = none → req.side = Side.buy →
        alookup s.balances "USDT" = some ub → 0 ≤ ub.free →
        ∃ o : Order, (createOrder s req wc).1 = Except.ok o
          ∧ o.price = 0 ∧ o.cost = 0) := by
  refine ⟨?_, ?_, ?_, ?_⟩
  · intro hs; simp [getTicker, hno, hs]
  · intro hs; simp [getTicker, hno, hs]
  · simp [resolvePrice, currentSnap, hno]
  · intro req wc ub _ hsym hpr hside hu hub
    obtain ⟨rs, side, ot, amt, pr⟩ := req
    obtain rfl : rs = sym := hsym
    obtain rfl : pr = none := hpr
    cases hside
    have hp0 : resolvePrice s rs none = 0 := by simp [resolvePrice, currentSnap, hno]
    have hc : ¬ assetFree s.balances "USDT" < amt * resolvePrice s rs none := by
      rw [hp0]
      simp [assetFree, hu]
      exact hub
    refine Exists.intro
      { oid := s.oidCounter + 1, symbol := rs, side := Side.buy, otype := ot,
        status := "filled", price := resolvePrice s rs none, amount := amt,
        filled := amt, remaining := 0, cost := amt * resolvePrice s rs none,
        created_at := if currentTimestamp s = 0 then wc else currentTimestamp s,
        updated_at := if currentTimestamp s = 0 then wc else currentTimestamp s }
      ⟨?_, ?_, ?_⟩
    · simp [createOrder, hu, hc]
    · simpa using hp0
    · simp [hp0]

/-- C7 counterexample: `crossState` is in strict mode and has no
timeline for `DOGE/USDT`, yet `POST /orders` for `dogeReq` does not fail
with a lookup error — it fills the order (at price 0, crediting 5 DOGE
for free), contradicting "when strict=true the operation fails with a
lookup error ... for all such operations, including order creation". -/
theorem c7_counterexample :
    crossState.strict = true
    ∧ alookup crossState.tickers dogeReq.symbol = none
    ∧ (createOrder crossState dogeReq 42).1.isOk = true
    ∧ assetFree (createOrder crossState dogeReq 42).2.balances "DOGE" = 5
    ∧ assetFree (createOrder crossState dogeReq 42).2.balances "USDT" = 100 := by
  refine ⟨rfl, rfl, ?_, ?_, ?_⟩ <;>
    norm_num +decide [createOrder, crossState, dogeReq, dogeusdt, resolvePrice,
      currentSnap, assetFree, alookup, aset, Except.isOk]

/-- C7 witness: the amended statement at concrete inputs — strict
`crossState` errors on an unknown-symbol ticker read, its non-strict
twin returns the placeholder, and strict order creation on the unknown
symbol succeeds at price 0. -/
theorem c7_witness :
    (getTicker crossState dogeusdt
      = Except.error (.keyError ("Unknown symbol " ++ dogeusdt.base ++ "/" ++ dogeusdt.quote)))
    ∧ (getTicker { crossState with strict := false } dogeusdt
      = Except.ok (.placeholder dogeusdt
          (currentTimestamp { crossState with strict := false })))
    ∧ (∃ o : Order, (createOrder crossState dogeReq 42).1 = Except.ok o
        ∧ o.price = 0 ∧ o.cost = 0) := by
  refine ⟨?_, ?_, ?_⟩
  · exact (c7_strict_mode crossState dogeusdt rfl).1 rfl
  · exact (c7_strict_mode { crossState with strict := false } dogeusdt rfl).2.1 rfl
  · exact (c7_strict_mode crossState dogeusdt rfl).2.2.2 dogeReq 42 ⟨100, 0⟩
      rfl rfl rfl rfl (by decide) (by norm_num)

/-! ### C8: cancel semantics and frame -/

/-- C8: for an id present in the order store, cancel sets that order's
status to `"canceled"` and its `updated_at` to the current simulated
timestamp and changes nothing else — balances (in particular the fill's
balance mutation is not reversed), cursors, tickers, the id counter, the
strict flag and every other order are untouched, and every other field
of the canceled order keeps its value; for an id not present, cancel
fails with a lookup (not-found) error and changes no state. -/
theorem c8_cancel_frame (s : ReplayState) (oid : Nat) :
    (alookup s.orders oid = none →
        cancelOrder s oid = (Except.error (.keyError "order not found"), s))
    ∧ (∀ o : Order, alookup s.orders oid = some o →
        (cancelOrder s oid).1
            = Except.ok { o with status := "canceled", updated_at := currentTimestamp s }
        ∧ (cancelOrder s oid).2.balances = s.balances
        ∧ (cancelOrder s oid).2.cursor = s.cursor
        ∧ (cancelOrder s oid).2.tickers = s.tickers
        ∧ (cancelOrder s oid).2.oidCounter = s.oidCounter
        ∧ (cancelOrder s oid).2.strict = s.strict
        ∧ alookup (cancelOrder s oid).2.orders oid
            = some { o with status := "canceled", updated_at := currentTimestamp s }
        ∧ (∀ k, k ≠ oid →
            alookup (cancelOrder s oid).2.orders k = alookup s.orders k)) := by
  constructor
  · intro h; simp [cancelOrder, h]
  · intro o h
    refine ⟨?_, ?_, ?_, ?_, ?_, ?_, ?_, ?_⟩
    · simp [cancelOrder, h]
    · simp [cancelOrder, h]
    · simp [cancelOrder, h]
    · simp [cancelOrder, h]
    · simp [cancelOrder, h]
    · simp [cancelOrder, h]
    · simp [cancelOrder, h, alookup_aset_self]
    · intro k hk; simp [cancelOrder, h, alookup_aset_ne _ _ _ _ hk]

/-- C8 witness: cancelling order 1 of `exState` marks exactly that order
canceled at the current replay time and leaves every other component in
place; cancelling the absent id 99 errors and returns the state
untouched. -/
theorem c8_witness :
    ((cancelOrder exState 1).1
        = Except.ok { exOrder with status := "canceled", updated_at := currentTimestamp exState }
      ∧ (cancelOrder exState 1).2.balances = exState.balances
      ∧ (cancelOrder exState 1).2.cursor = exState.cursor
      ∧ (cancelOrder exState 1).2.tickers = exState.tickers
      ∧ (cancelOrder exState 1).2.oidCounter = exState.oidCounter
      ∧ (cancelOrder exState 1).2.strict = exState.strict
      ∧ alookup (cancelOrder exState 1).2.orders 1
          = some { exOrder with status := "canceled", updated_at := currentTimestamp exState }
      ∧ (∀ k, k ≠ 1 →
          alookup (cancelOrder exState 1).2.orders k = alookup exState.orders k))
    ∧ cancelOrder exState 99
        = (Except.error (.keyError "order not found"), exState) :=
  ⟨(c8_cancel_frame exState 1).2 exOrder (by decide),
   (c8_cancel_frame exState 99).1 (by decide)⟩

/-! ### C10: cancel idempotence -/

/-- C10: cancelling an already-canceled order is not an error: applied
to any stored id, a second cancel (with no time advance in between)
returns the same canceled record and leaves the engine state exactly as
it was after the first cancel. -/
theorem c10_cancel_idempotent (s : ReplayState) (oid : Nat) (o : Order)
    (h : alookup s.orders oid = some o) :
    (cancelOrder s oid).1
        = Except.ok { o with status := "canceled", updated_at := currentTimestamp s }
    ∧ cancelOrder (cancelOrder s oid).2 oid = cancelOrder s oid := by
  constructor
  · simp [cancelOrder, h]
  · simp [cancelOrder, h, alookup_aset_self, aset_aset, currentTimestamp]

/-- C10 witness: double-cancel of order 1 in `exState` equals a single
cancel, whose result is the canceled record. -/
theorem c10_witness :
    (cancelOrder exState 1).1
        = Except.ok { exOrder with status := "canceled", updated_at := currentTimestamp exState }
    ∧ cancelOrder (cancelOrder exState 1).2 1 = cancelOrder exState 1 :=
  c10_cancel_idempotent exState 1 exOrder (by decide)

/-! ### C9: balances stay nonnegative -/

/-- Nonnegativity of an optional price field (`None` counts as fine). -/
def nonnegO (o : Option ℚ) : Bool :=
  match o with
  | none => true
  | some x => decide (0 ≤ x)

/-- Every ledger row has nonnegative free and used components. -/
def balancesNonneg (bs : List (String × Balance)) : Prop :=
  ∀ p ∈ bs, 0 ≤ p.2.free ∧ 0 ≤ p.2.used

/-- Every price field of every loaded snapshot is nonnegative. -/
def tickersNonneg (tk : List (Sym × List Snapshot)) : Prop :=
  ∀ e ∈ tk, ∀ sn ∈ e.2,
    nonnegO sn.last = true ∧ nonnegO sn.bid = true ∧ nonnegO sn.ask = true

/-- An operation has nonnegative order amount and explicit price. -/
def opNonneg : Op → Bool
  | .create req _ => decide (0 ≤ req.amount) && nonnegO req.price
  | _ => true

theorem resolvePrice_nonneg (s : ReplayState) (sym : Sym) (pr : Option ℚ)
    (htk : tickersNonneg s.tickers) (hpr : nonnegO pr = true) :
    0 ≤ resolvePrice s sym pr := by
  cases pr with
  | some p => simpa [nonnegO] using hpr
  | none =>
      unfold resolvePrice
      cases hsnap : currentSnap s sym with
      | none => simp
      | some snap =>
          have hex : ∃ lst, alookup s.tickers sym = some lst ∧ snap ∈ lst := by
            unfold currentSnap at hsnap
            cases htks : alookup s.tickers sym with
            | none => simp [htks] at hsnap
            | some lst =>
                simp only [htks] at hsnap
                by_cases hemp : lst.isEmpty
                · simp [hemp] at hsnap
                · rw [if_neg hemp] at hsnap
                  exact ⟨lst, rfl, List.get?_mem hsnap⟩
          obtain ⟨lst, htks, hmem⟩ := hex
          have hsn := htk (sym, lst) (alookup_mem htks) snap hmem
          cases hl : snap.last with
          | some l =>
              have h1 := hsn.1
              rw [hl] at h1
              simp only [nonnegO, decide_eq_true_eq] at h1
              simpa [hl] using h1
          | none =>
              cases hb : snap.bid with
              | none => simp [hl, hb]
              | some b =>
                  cases ha : snap.ask with
                  | none => simp [hl, hb, ha]
                  | some a =>
                      have h1 := hsn.2.1
                      rw [hb] at h1
                      simp only [nonnegO, decide_eq_true_eq] at h1
                      have h2 := hsn.2.2
                      rw [ha] at h2
                      simp only [nonnegO, decide_eq_true_eq] at h2
                      have hd := div_nonneg (add_nonneg h1 h2) (by norm_num : (0:ℚ) ≤ 2)
                      simpa [hl, hb, ha] using hd

theorem balancesNonneg_aset {bs : List (String × Balance)} {k : String} {v : Balance}
    (hb : balancesNonneg bs) (hv : 0 ≤ v.free ∧ 0 ≤ v.used) :
    balancesNonneg (aset bs k v) := by
  intro p hp
  rcases mem_aset hp with rfl | hp2
  · exact hv
  · exact hb p hp2

theorem balancesNonneg_getD {bs : List (String × Balance)} (hb : balancesNonneg bs)
    (k : String) :
    0 ≤ ((alookup bs k).getD { free := 0, used := 0 }).free
    ∧ 0 ≤ ((alookup bs k).getD { free := 0, used := 0 }).used := by
  cases h : alookup bs k with
  | none => simp
  | some b => simpa using hb (k, b) (alookup_mem h)

theorem createOrder_balances_nonneg (s : ReplayState) (req : OrderReq) (wc : Int)
    (hb : balancesNonneg s.balances) (htk : tickersNonneg s.tickers)
    (hamt : 0 ≤ req.amount) (hpr : nonnegO req.price = true) :
    balancesNonneg (createOrder s req wc).2.balances := by
  obtain ⟨sym, side, ot, amt, pr⟩ := req
  simp only at hamt hpr
  have hprice : 0 ≤ resolvePrice s sym pr := resolvePrice_nonneg s sym pr htk hpr
  have hcost : 0 ≤ amt * resolvePrice s sym pr := mul_nonneg hamt hprice
  cases side with
  | buy =>
      by_cases hc : assetFree s.balances "USDT" < amt * resolvePrice s sym pr
      · simpa [createOrder, hc] using hb
      · cases hu : alookup s.balances "USDT" with
        | none => simpa [createOrder, hc, hu] using hb
        | some ub =>
            have hub := hb ("USDT", ub) (alookup_mem hu)
            have hufree : 0 ≤ ub.free - amt * resolvePrice s sym pr := by
              have hfeq : assetFree s.balances "USDT" = ub.free := by
                simp [assetFree, hu]
              rw [hfeq] at hc
              push_neg at hc
              linarith
            have hb2 : balancesNonneg (aset s.balances "USDT"
                { free := ub.free - amt * resolvePrice s sym pr, used := ub.used }) :=
              balancesNonneg_aset hb ⟨hufree, hub.2⟩
            intro p hp
            simp [createOrder, hc, hu] at hp
            rcases mem_aset hp with rfl | hp2
            · constructor
              · simpa using add_nonneg (balancesNonneg_getD hb2 sym.base).1 hamt
              · simpa using (balancesNonneg_getD hb2 sym.base).2
            · exact hb2 p hp2
  | sell =>
      by_cases hc : assetFree s.balances sym.base < amt
      · simpa [createOrder, hc] using hb
      · cases hu : alookup s.balances sym.base with
        | none => simpa [createOrder, hc, hu] using hb
        | some bb =>
            have hbb := hb (sym.base, bb) (alookup_mem hu)
            have hbfree : 0 ≤ bb.free - amt := by
              have hfeq : assetFree s.balances sym.base = bb.free := by
                simp [assetFree, hu]
              rw [hfeq] at hc
              push_neg at hc
              linarith
            have hb2 : balancesNonneg (aset s.balances sym.base
                { free := bb.free - amt, used := bb.used }) :=
              balancesNonneg_aset hb ⟨hbfree, hbb.2⟩
            intro p hp
            simp [createOrder, hc, hu] at hp
            rcases mem_aset hp with rfl | hp2
            · constructor
              · simpa using add_nonneg (balancesNonneg_getD hb2 "USDT").1 hcost
              · simpa using (balancesNonneg_getD hb2 "USDT").2
            · exact hb2 p hp2

theorem createOrder_tickers_cursor (s : ReplayState) (req : OrderReq) (wc : Int) :
    (createOrder s req wc).2.tickers = s.tickers := by
  obtain ⟨sym, side, ot, amt, pr⟩ := req
  cases side with
  | buy =>
      by_cases hc : assetFree s.balances "USDT" < amt * resolvePrice s sym pr
      · simp [createOrder, hc]
      · cases hu : alookup s.balances "USDT" <;> simp [createOrder, hc, hu]
  | sell =>
      by_cases hc : assetFree s.balances sym.base < amt
      · simp [createOrder, hc]
      · cases hu : alookup s.balances sym.base <;> simp [createOrder, hc, hu]

theorem cancelOrder_balances_tickers (s : ReplayState) (oid : Nat) :
    (cancelOrder s oid).2.balances = s.balances
    ∧ (cancelOrder s oid).2.tickers = s.tickers := by
  cases h : alookup s.orders oid <;> simp [cancelOrder, h]

theorem canExecute_state (s : ReplayState) (req : OrderReq) :
    (canExecute s req).2 = s := by
  obtain ⟨sym, side, ot, amt, pr⟩ := req
  cases side <;> simp [canExecute]

theorem applyOp_nonneg (s : ReplayState) (op : Op)
    (hb : balancesNonneg s.balances) (htk : tickersNonneg s.tickers)
    (hop : opNonneg op = true) :
    balancesNonneg (applyOp s op).balances ∧ tickersNonneg (applyOp s op).tickers := by
  cases op with
  | advTo t => exact ⟨hb, htk⟩
  | advSteps n => exact ⟨hb, htk⟩
  | create req wc =>
      simp only [opNonneg, Bool.and_eq_true, decide_eq_true_eq] at hop
      refine ⟨createOrder_balances_nonneg s req wc hb htk hop.1 hop.2, ?_⟩
      show tickersNonneg (createOrder s req wc).2.tickers
      rw [createOrder_tickers_cursor]
      exact htk
  | cancel oid =>
      have h := cancelOrder_balances_tickers s oid
      constructor
      · show balancesNonneg (cancelOrder s oid).2.balances
        rw [h.1]; exact hb
      · show tickersNonneg (cancelOrder s oid).2.tickers
        rw [h.2]; exact htk
  | canExec req =>
      constructor
      · show balancesNonneg (canExecute s req).2.balances
        rw [canExecute_state]; exact hb
      · show tickersNonneg (canExecute s req).2.tickers
        rw [canExecute_state]; exact htk

/-- C9: over any sequence of engine operations, if all initial free and
used balances are nonnegative, all snapshot prices are nonnegative, and
every order request carries a nonnegative amount and (when explicit)
nonnegative price, then every ledger row stays nonnegative after every
operation: the buy path checks the balance it debits (USDT) before
debiting, the sell path checks the base balance before debiting, credits
are nonnegative, and `used` is never mutated. -/
theorem c9_balances_nonneg :
    ∀ (ops : List Op) (s : ReplayState),
      balancesNonneg s.balances → tickersNonneg s.tickers →
      (∀ op ∈ ops, opNonneg op = true) →
      balancesNonneg (ops.foldl applyOp s).balances := by
  intro ops
  induction ops with
  | nil => intro s hb _ _; exact hb
  | cons op rest ih =>
      intro s hb htk hops
      have hstep := applyOp_nonneg s op hb htk (hops op (List.mem_cons_self _ _))
      exact ih _ hstep.1 hstep.2 (fun o ho => hops o (List.mem_cons_of_mem _ ho))

/-- A small mixed workload: a step advance, an affordable buy, a cancel,
a dry-run check and a timestamp jump. -/
def exOps : List Op :=
  [Op.advSteps 1, Op.create limitReq 0, Op.cancel 1, Op.canExec limitReq,
   Op.advTo 1710000001000]

/-- C9 witness: the nonnegativity hypotheses hold of `exState` and
`exOps`, and the invariant instantiates to the folded final state. -/
theorem c9_witness :
    balancesNonneg exState.balances
    ∧ tickersNonneg exState.tickers
    ∧ (∀ op ∈ exOps, opNonneg op = true)
    ∧ balancesNonneg (exOps.foldl applyOp exState).balances := by
  have h1 : balancesNonneg exState.balances := by
    unfold balancesNonneg; decide
  have h2 : tickersNonneg exState.tickers := by
    unfold tickersNonneg; decide
  have h3 : ∀ op ∈ exOps, opNonneg op = true := by decide
  exact ⟨h1, h2, h3, c9_balances_nonneg exOps exState h1 h2 h3⟩

end Replay
